import Mathlib

/-!
# NoteDown canvas core: shallow embedding and verification

This file embeds, in Lean 4, the canvas editing and history subsystem of the
NoteDown note-taking application (the `InfiniteCanvas` component, the
`CanvasTable` component and the `DrawingOverlay` component), and proves or
refutes the testable properties of its specification.

Conventions of the embedding:
* JavaScript floating-point numbers are modelled as rationals (`ℚ`); the
  algorithms under study only add, subtract, multiply, divide, compare,
  `Math.min`/`Math.max`/`Math.round`/`Math.floor`, so rational arithmetic is
  an exact model away from overflow and rounding, which no claim is about.
* `Math.sqrt(d) <= t` (with `d` a sum of squares, hence nonnegative) is
  modelled by the equivalent rational predicate `0 ≤ t ∧ d ≤ t ^ 2`; the
  equivalence is `Real.sqrt_le_left`-style monotonicity and is recorded at
  the definition that uses it.
* The Page/Notebook store (`useNotesStore`, bundled with the sources) is
  embedded with its real semantics: the nested notebook/section/page maps of
  `addCanvasItem`/`updateCanvasItem`/`deleteCanvasItem` (the latter do a
  by-id lookup; updates spread-merge a `Partial<CanvasItem>`), and the
  search loops of `getActivePage`.  Display-only fields (titles, dates,
  colors, flags) that no verified algorithm inspects are omitted.
* Stacks are lists whose LAST element is the top, matching the JavaScript
  arrays (`push`, `prev[prev.length - 1]`, `slice(0, -1)`).
-/

namespace NoteDown

/-- A 2-D point with rational coordinates (screen or canvas space). -/
structure Point where
  x : ℚ
  y : ℚ
deriving DecidableEq, Repr

/-- One erase stroke layered over a drawing item
(`{path, strokeWidth}` entry of `maskPaths`); the path is the list of points
parsed out of the serialized path string. -/
structure MaskPath where
  path : List Point
  strokeWidth : ℚ
deriving DecidableEq, Repr

/-- Per-variant payload of a canvas item (`type`-discriminated union of
`useNotesStore`'s `CanvasItem`).  Only the variants and fields the verified
algorithms inspect are carried; the rest are collapsed into `other`. -/
inductive ItemPayload where
  | text (content : String)
  | sticky (content : String)
  | table (rows cols : Nat) (cells : List (List String))
  | drawing (paths : List Point) (strokeWidth : ℚ) (maskPaths : List MaskPath)
  | other
deriving DecidableEq, Repr

/-- A canvas item: common positional fields plus the variant payload. -/
structure CanvasItem where
  id : String
  x : ℚ
  y : ℚ
  width : ℚ
  height : ℚ
  payload : ItemPayload
deriving DecidableEq, Repr

/-- The `(notebookId, sectionId, pageId)` argument triple a caller passes to
a store mutation (`activePage.notebook.id, activePage.section.id,
activePage.page.id` at every call site). -/
structure PageRef where
  notebookId : String
  sectionId : String
  pageId : String
deriving DecidableEq, Repr

/-- A `Partial<CanvasItem>` update record over the modelled fields: a `some`
field is present in the update object and overwrites on spread-merge, a
`none` field is absent and leaves the live item's value.  The per-variant
fields live inside `payload`, so an update touching a variant field (e.g.
`{maskPaths: ...}` or `{cells: ...}`) carries a whole new payload here. -/
structure ItemUpdate where
  id : Option String
  x : Option ℚ
  y : Option ℚ
  width : Option ℚ
  height : Option ℚ
  payload : Option ItemPayload
deriving DecidableEq, Repr

/-- JavaScript spread merge `{...item, ...updates}` as `updateCanvasItem`
performs it, field by field over the modelled fields. -/
def mergeUpdate (item : CanvasItem) (u : ItemUpdate) : CanvasItem :=
  { id := u.id.getD item.id,
    x := u.x.getD item.x,
    y := u.y.getD item.y,
    width := u.width.getD item.width,
    height := u.height.getD item.height,
    payload := u.payload.getD item.payload }

/-- A full item snapshot passed where `Partial<CanvasItem>` is expected
(`updateCanvasItem(..., prevItem.id, prevItem)` in the undo/redo handlers):
every modelled field is present.  The snapshots those handlers pass are
deep/spread copies of full items, so all the modelled fields are present on
them; the variant-specific fields travel together inside the collapsed
`payload`. -/
def CanvasItem.asUpdate (i : CanvasItem) : ItemUpdate :=
  ⟨some i.id, some i.x, some i.y, some i.width, some i.height, some i.payload⟩

/-- A page of the store (`useNotesStore`): its id and its `canvasItems`.
The display fields (`title`, legacy `content`, `tags`, dates) are not
inspected by the verified algorithms and are omitted. -/
structure Page where
  id : String
  canvasItems : List CanvasItem
deriving DecidableEq, Repr

/-- A section of the store: its id and its pages (title and expansion flag
omitted). -/
structure Section where
  id : String
  pages : List Page
deriving DecidableEq, Repr

/-- A notebook of the store: its id and its sections (title, color and
expansion flag omitted). -/
structure Notebook where
  id : String
  sections : List Section
deriving DecidableEq, Repr

/-- The slice of the `useNotesStore` state the canvas core reads and
mutates: the notebook forest and the active page id. -/
structure NotesState where
  notebooks : List Notebook
  activePageId : Option String
deriving DecidableEq, Repr

/-- The record `getActivePage()` returns: `{notebook, section, page}`.
(The middle field is named `sect` because `section` is a Lean keyword.) -/
structure ActiveSelection where
  notebook : Notebook
  sect : Section
  page : Page
deriving DecidableEq, Repr

/-- The inner `for (const section of notebook.sections)` loop of the store's
`getActivePage`: the first section holding a page whose id is the active
page id (via `section.pages.find(...)`) yields the selection. -/
def findInSections (notebook : Notebook) (activePageId : String) :
    List Section → Option ActiveSelection
  | [] => none
  | s :: rest =>
      match s.pages.find? (fun p => p.id = activePageId) with
      | some page => some ⟨notebook, s, page⟩
      | none => findInSections notebook activePageId rest

/-- The outer `for (const notebook of notebooks)` loop of the store's
`getActivePage`. -/
def findInNotebooks (activePageId : String) : List Notebook → Option ActiveSelection
  | [] => none
  | nb :: rest =>
      match findInSections nb activePageId nb.sections with
      | some sel => some sel
      | none => findInNotebooks activePageId rest

/-- The store's `getActivePage`: `null` when no active page id is set,
otherwise the first `{notebook, section, page}` whose page carries the
active id. -/
def getActivePage (state : NotesState) : Option ActiveSelection :=
  match state.activePageId with
  | none => none
  | some pid => findInNotebooks pid state.notebooks

/-- The store's `addCanvasItem`: map down the notebook/section/page path by
id and append the item to the matching page's `canvasItems`. -/
def addCanvasItem (state : NotesState) (notebookId sectionId pageId : String)
    (item : CanvasItem) : NotesState :=
  { state with notebooks := state.notebooks.map fun nb =>
      if nb.id = notebookId then
        { nb with sections := nb.sections.map fun s =>
            if s.id = sectionId then
              { s with pages := s.pages.map fun p =>
                  if p.id = pageId then
                    { p with canvasItems := p.canvasItems ++ [item] }
                  else p }
            else s }
      else nb }

/-- The store's `updateCanvasItem`: spread-merge the partial update over the
item with the matching id (`{...item, ...updates}`). -/
def updateCanvasItem (state : NotesState) (notebookId sectionId pageId itemId : String)
    (updates : ItemUpdate) : NotesState :=
  { state with notebooks := state.notebooks.map fun nb =>
      if nb.id = notebookId then
        { nb with sections := nb.sections.map fun s =>
            if s.id = sectionId then
              { s with pages := s.pages.map fun p =>
                  if p.id = pageId then
                    { p with canvasItems := p.canvasItems.map fun item =>
                        if item.id = itemId then mergeUpdate item updates else item }
                  else p }
            else s }
      else nb }

/-- The store's `deleteCanvasItem`: filter the item with the matching id out
of the matching page's `canvasItems`. -/
def deleteCanvasItem (state : NotesState) (notebookId sectionId pageId itemId : String) :
    NotesState :=
  { state with notebooks := state.notebooks.map fun nb =>
      if nb.id = notebookId then
        { nb with sections := nb.sections.map fun s =>
            if s.id = sectionId then
              { s with pages := s.pages.map fun p =>
                  if p.id = pageId then
                    { p with canvasItems := p.canvasItems.filter (fun item => item.id ≠ itemId) }
                  else p }
            else s }
      else nb }

/-- The `HistoryAction` union of `InfiniteCanvas`: `ADD`/`DELETE` carry a full item
snapshot, `UPDATE` carries full before/after snapshots. -/
inductive HistoryAction where
  | ADD (item : CanvasItem)
  | DELETE (item : CanvasItem)
  | UPDATE (prevItem newItem : CanvasItem)
deriving DecidableEq, Repr

/-- A store mutation call issued by an undo/redo handler, with the argument
triple the handler passed.  Recording which triple was passed lets us state
whether a handler used the closure-captured page or a freshly fetched
one. -/
inductive StoreOp where
  | addItem (ref : PageRef) (item : CanvasItem)
  | deleteItem (ref : PageRef) (itemId : String)
  | updateItem (ref : PageRef) (itemId : String) (updates : ItemUpdate)
deriving DecidableEq, Repr

/-- Dispatch of a recorded store call to the store mutation it denotes. -/
def applyStoreOp (state : NotesState) (op : StoreOp) : NotesState :=
  match op with
  | .addItem ref item =>
      addCanvasItem state ref.notebookId ref.sectionId ref.pageId item
  | .deleteItem ref itemId =>
      deleteCanvasItem state ref.notebookId ref.sectionId ref.pageId itemId
  | .updateItem ref itemId updates =>
      updateCanvasItem state ref.notebookId ref.sectionId ref.pageId itemId updates

/-- The stack transformation of `pushToUndoStack` (`InfiniteCanvas`): coalesce an
`UPDATE` into a trailing `ADD` of the same item id, replacing the `ADD` with
an `ADD` of the updated item; otherwise push.  (The caller also clears the
redo stack; see `recordAction`.) -/
def pushToUndoStack (action : HistoryAction) (prev : List HistoryAction) : List HistoryAction :=
  match action, prev.getLast? with
  | .UPDATE _ newItem, some (.ADD item) =>
      if item.id = newItem.id then prev.dropLast ++ [.ADD newItem]
      else prev ++ [action]
  | _, _ => prev ++ [action]

/-- The undo/redo stack pair of the Global Action History. -/
structure HistoryState where
  undoStack : List HistoryAction
  redoStack : List HistoryAction
deriving DecidableEq, Repr

/-- Recording a new action: push (with coalescing) onto the undo stack and
clear the redo stack (`setRedoStack([])` in `pushToUndoStack`'s caller). -/
def recordAction (action : HistoryAction) (h : HistoryState) : HistoryState :=
  { undoStack := pushToUndoStack action h.undoStack, redoStack := [] }

/-- Result of an undo/redo handler call: the store calls it issued (in
order, with the argument triples), the store state afterwards, and the two
stacks afterwards. -/
structure HandlerResult where
  calls : List StoreOp
  store : NotesState
  undoStack : List HistoryAction
  redoStack : List HistoryAction
deriving DecidableEq, Repr

/-- The function `handleUndo` of `InfiniteCanvas`.  `closurePage` is the `activePage`
captured by the `useCallback` closure at render time; `store` is the store
state at call time, from which the `UPDATE` branch — and only that branch —
re-fetches the page via `useNotesStore.getState().getActivePage()`.  The
`ADD` and `DELETE` branches key their mutation by the closure-captured
page's ids.  When the fresh page is `null` in the `UPDATE` branch the
handler returns after having already popped the undo stack, issuing no
mutation and leaving the redo stack untouched. -/
def handleUndo (closurePage : Option ActiveSelection) (store : NotesState)
    (undoStack redoStack : List HistoryAction) : HandlerResult :=
  match closurePage, undoStack.getLast? with
  | none, _ => ⟨[], store, undoStack, redoStack⟩
  | _, none => ⟨[], store, undoStack, redoStack⟩
  | some cp, some lastAction =>
    let rest := undoStack.dropLast
    match lastAction with
    | .ADD item =>
        let op := StoreOp.deleteItem ⟨cp.notebook.id, cp.sect.id, cp.page.id⟩ item.id
        ⟨[op], applyStoreOp store op, rest, redoStack ++ [lastAction]⟩
    | .DELETE item =>
        let op := StoreOp.addItem ⟨cp.notebook.id, cp.sect.id, cp.page.id⟩ item
        ⟨[op], applyStoreOp store op, rest, redoStack ++ [lastAction]⟩
    | .UPDATE prevItem _ =>
        match getActivePage store with
        | none => ⟨[], store, rest, redoStack⟩
        | some fp =>
            let op := StoreOp.updateItem ⟨fp.notebook.id, fp.sect.id, fp.page.id⟩
              prevItem.id prevItem.asUpdate
            ⟨[op], applyStoreOp store op, rest, redoStack ++ [lastAction]⟩

/-- The function `handleRedo` of `InfiniteCanvas`, mirroring `handleUndo`: the `UPDATE`
branch re-fetches the page from the store, the `ADD` and `DELETE` branches
use the closure-captured one. -/
def handleRedo (closurePage : Option ActiveSelection) (store : NotesState)
    (undoStack redoStack : List HistoryAction) : HandlerResult :=
  match closurePage, redoStack.getLast? with
  | none, _ => ⟨[], store, undoStack, redoStack⟩
  | _, none => ⟨[], store, undoStack, redoStack⟩
  | some cp, some lastAction =>
    let rest := redoStack.dropLast
    match lastAction with
    | .ADD item =>
        let op := StoreOp.addItem ⟨cp.notebook.id, cp.sect.id, cp.page.id⟩ item
        ⟨[op], applyStoreOp store op, undoStack ++ [lastAction], rest⟩
    | .DELETE item =>
        let op := StoreOp.deleteItem ⟨cp.notebook.id, cp.sect.id, cp.page.id⟩ item.id
        ⟨[op], applyStoreOp store op, undoStack ++ [lastAction], rest⟩
    | .UPDATE _ newItem =>
        match getActivePage store with
        | none => ⟨[], store, undoStack, rest⟩
        | some fp =>
            let op := StoreOp.updateItem ⟨fp.notebook.id, fp.sect.id, fp.page.id⟩
              newItem.id newItem.asUpdate
            ⟨[op], applyStoreOp store op, undoStack ++ [lastAction], rest⟩

/-- A store fixture for scenario theorems: one notebook, one section, one
page (the active one) holding `items`.  This is a concrete store
configuration the scenario theorems quantify over, not an embedding of
source code. -/
def singleState (nid sid pid : String) (items : List CanvasItem) : NotesState :=
  ⟨[⟨nid, [⟨sid, [⟨pid, items⟩]⟩]⟩], some pid⟩

/-- The selection `getActivePage` returns on `singleState` (see
`getActivePage_single`). -/
def singleSelection (nid sid pid : String) (items : List CanvasItem) : ActiveSelection :=
  ⟨⟨nid, [⟨sid, [⟨pid, items⟩]⟩]⟩, ⟨sid, [⟨pid, items⟩]⟩, ⟨pid, items⟩⟩

/-- The active page's item collection, `[]` when no page is active — an
accessor used to state theorems about the store after an operation. -/
def activeCanvasItems (state : NotesState) : List CanvasItem :=
  ((getActivePage state).map (fun sel => sel.page.canvasItems)).getD []

/-- Combined state for whole scenarios: the store plus the Global Action
History stacks. -/
structure CanvasState where
  store : NotesState
  undoStack : List HistoryAction
  redoStack : List HistoryAction
deriving DecidableEq, Repr

/-- The `recordAdd` scenario step: the creating code path (e.g.
`handleCanvasClick`) calls `addCanvasItem` keyed by the active page's ids,
then `pushToUndoStack({type:'ADD', item})`, clearing the redo stack. -/
def doAdd (s : CanvasState) (item : CanvasItem) : CanvasState :=
  match getActivePage s.store with
  | none => s
  | some ap =>
      { store := addCanvasItem s.store ap.notebook.id ap.sect.id ap.page.id item,
        undoStack := pushToUndoStack (.ADD item) s.undoStack,
        redoStack := [] }

/-- The `recordUpdate` scenario step: the widget holding `item` issues a
partial update `u` (`onUpdate(updates)` → `updateCanvasItem` keyed by the
active page's ids and `item.id`) and saves the snapshot pair
`(item, {...item, ...updates})` to the Global History (`onHistorySave` →
`pushToUndoStack({type:'UPDATE', prevItem, newItem})`). -/
def doUpdate (s : CanvasState) (item : CanvasItem) (u : ItemUpdate) : CanvasState :=
  match getActivePage s.store with
  | none => s
  | some ap =>
      { store := updateCanvasItem s.store ap.notebook.id ap.sect.id ap.page.id item.id u,
        undoStack := pushToUndoStack (.UPDATE item (mergeUpdate item u)) s.undoStack,
        redoStack := [] }

/-- The `undo()` scenario step: `handleUndo` with the closure page equal to
the store's current active page (no intervening render). -/
def doUndo (s : CanvasState) : CanvasState :=
  let r := handleUndo (getActivePage s.store) s.store s.undoStack s.redoStack
  ⟨r.store, r.undoStack, r.redoStack⟩

/-! ## Geometry Engine (`InfiniteCanvas`): view transform and zoom -/

/-- Pan/zoom view state of `InfiniteCanvas`: `scale` and `offset`. -/
structure ViewState where
  scale : ℚ
  offsetX : ℚ
  offsetY : ℚ
deriving DecidableEq, Repr

/-- The function `screenToCanvas` of `InfiniteCanvas`:
`((clientX - rect.left - offset.x) / scale, (clientY - rect.top - offset.y) / scale)`.
`rectLeft`/`rectTop` are the canvas element's bounding-rect origin. -/
def screenToCanvas (v : ViewState) (rectLeft rectTop clientX clientY : ℚ) : Point :=
  ⟨(clientX - rectLeft - v.offsetX) / v.scale, (clientY - rectTop - v.offsetY) / v.scale⟩

/-- The Ctrl+wheel branch of `onWheel` in `InfiniteCanvas`:
`delta = -e.deltaY * 0.001`, `newScale = min(max(0.1, scale + delta), 5)`,
and the recentring offset update
`newOffset = mouse - (mouse - offset) * (newScale / scale)` where `mouse` is
the cursor position relative to the canvas origin (`clientX - rect.left`). -/
def onWheelZoom (v : ViewState) (deltaY rectLeft rectTop clientX clientY : ℚ) : ViewState :=
  let delta := -deltaY * (1 / 1000)
  let newScale := min (max (1 / 10) (v.scale + delta)) 5
  let mouseX := clientX - rectLeft
  let mouseY := clientY - rectTop
  { scale := newScale,
    offsetX := mouseX - (mouseX - v.offsetX) * (newScale / v.scale),
    offsetY := mouseY - (mouseY - v.offsetY) * (newScale / v.scale) }

/-! ## Point-to-segment distance and eraser hit-testing (`InfiniteCanvas`) -/

/-- The helper `distanceToLineSegment` of `InfiniteCanvas`, squared.  The source
computes `Math.sqrt(...)` of exactly this quantity; since
`Math.sqrt(d) <= t ↔ (0 ≤ t ∧ d ≤ t²)` for the nonnegative `d` produced
here, every comparison against it is modelled on the squared value (see
`segmentHit`).  The zero-length guard (`lengthSq === 0`: the segment is a
point, return the point-to-point distance) is reproduced as in the source. -/
def distSqToLineSegment (px py x1 y1 x2 y2 : ℚ) : ℚ :=
  let dx := x2 - x1
  let dy := y2 - y1
  let lengthSq := dx * dx + dy * dy
  if lengthSq = 0 then
    (px - x1) ^ 2 + (py - y1) ^ 2
  else
    let t := ((px - x1) * dx + (py - y1) * dy) / lengthSq
    let tc := max 0 (min 1 t)
    let closestX := x1 + tc * dx
    let closestY := y1 + tc * dy
    (px - closestX) ^ 2 + (py - closestY) ^ 2

/-- The comparison `distanceToLineSegment(px,py,...) <= threshold` of the source, via the
squared form: for the nonnegative radicand `d`,
`Math.sqrt(d) <= t ↔ 0 ≤ t ∧ d ≤ t²`. -/
def segmentHit (px py threshold x1 y1 x2 y2 : ℚ) : Bool :=
  decide (0 ≤ threshold ∧ distSqToLineSegment px py x1 y1 x2 y2 ≤ threshold ^ 2)

/-- The inner helper `isPointNearSvgPath` of `handleEraserMove`: the parsed coordinate pairs
of the path are walked pairwise; the path is hit iff some consecutive point
pair's segment is within `threshold` of the point.  Fewer than two points
(fewer than one segment) never hit. -/
def isPointNearPath (px py threshold : ℚ) : List Point → Bool
  | p1 :: p2 :: rest =>
      segmentHit px py threshold p1.x p1.y p2.x p2.y || isPointNearPath px py threshold (p2 :: rest)
  | _ => false

/-- Mask check of `handleEraserMove`: the hit point is already masked iff it
is within `(mask.strokeWidth || 10) / 2 + 5` of some segment of some
existing mask path of the item.  (JavaScript `||` on a number falls through
exactly on `0`.) -/
def isMaskedAt (px py : ℚ) (masks : List MaskPath) : Bool :=
  masks.any fun m =>
    isPointNearPath px py ((if m.strokeWidth = 0 then 10 else m.strokeWidth) / 2 + 5) m.path

/-- Per-item decision of `handleEraserMove` (object-erase mode): a drawing
item is erased iff its path is hit at threshold
`eraserRadius + (item.strokeWidth || 3) / 2` and the hit point is not within
any existing mask stroke.  Non-drawing items are skipped. -/
def eraserShouldDelete (eraserRadius px py : ℚ) (item : CanvasItem) : Bool :=
  match item.payload with
  | .drawing paths strokeWidth maskPaths =>
      isPointNearPath px py (eraserRadius + (if strokeWidth = 0 then 3 else strokeWidth) / 2) paths
        && !(isMaskedAt px py maskPaths)
  | _ => false

/-- The `forEach` loop of `handleEraserMove`, iterating over the captured
`activePage.page.canvasItems` array while mutating the store: each
hit-and-unmasked drawing item contributes one `DELETE` history action (in
iteration order) and one `deleteCanvasItem` store call keyed by the
captured page's ids. -/
def eraserLoop (eraserRadius px py : ℚ) (ref : PageRef) :
    List CanvasItem → NotesState → List HistoryAction × NotesState
  | [], st => ([], st)
  | i :: rest, st =>
      if eraserShouldDelete eraserRadius px py i then
        let st1 := deleteCanvasItem st ref.notebookId ref.sectionId ref.pageId i.id
        let r := eraserLoop eraserRadius px py ref rest st1
        (.DELETE i :: r.1, r.2)
      else
        eraserLoop eraserRadius px py ref rest st

/-- The handler `handleEraserMove` of `InfiniteCanvas` in object-erase mode, at an
already-converted canvas-space pointer position `(px, py)` with
`eraserRadius = eraserSize`: iterate the closure-captured active page's
items, returning the recorded `DELETE` actions and the store after the
issued deletions. -/
def handleEraserMove (eraserRadius px py : ℚ) (activePage : ActiveSelection)
    (store : NotesState) : List HistoryAction × NotesState :=
  eraserLoop eraserRadius px py
    ⟨activePage.notebook.id, activePage.sect.id, activePage.page.id⟩
    activePage.page.canvasItems store

/-! ## Direct manipulation: `CanvasTable` drag -/

/-- Rounding as JavaScript's `Math.round` on an exact rational: half-way
cases round up, i.e. `Math.round(x) = ⌊x + 0.5⌋`. -/
def jsRound (q : ℚ) : ℤ := ⌊q + 1 / 2⌋

/-- Drag-gesture start state captured by `handleDragStart` of `CanvasTable`:
`{mouseX, mouseY, itemX, itemY}`. -/
structure DragStart where
  mouseX : ℚ
  mouseY : ℚ
  itemX : ℚ
  itemY : ℚ
deriving DecidableEq, Repr

/-- The handler `handleDragStart`: record the pointer-down client position and the
item's current position. -/
def dragStartOf (item : CanvasItem) (clientX clientY : ℚ) : DragStart :=
  ⟨clientX, clientY, item.x, item.y⟩

/-- The live position written by `handleMouseMove` during a `CanvasTable`
drag: `round(itemX + (clientX - startMouseX) / scale)` per axis. -/
def dragMovePos (d : DragStart) (clientX clientY scale : ℚ) : ℤ × ℤ :=
  (jsRound (d.itemX + (clientX - d.mouseX) / scale),
   jsRound (d.itemY + (clientY - d.mouseY) / scale))

/-- The handler `handleMouseUp` of the `CanvasTable` drag effect: if the canvas-space
movement exceeds 1 unit on either axis, emit one `UPDATE` history action
with full before/after snapshots (positions rounded as stored); otherwise
emit nothing. -/
def dragEndHistory (d : DragStart) (item : CanvasItem) (clientX clientY scale : ℚ) :
    Option (CanvasItem × CanvasItem) :=
  let deltaX := (clientX - d.mouseX) / scale
  let deltaY := (clientY - d.mouseY) / scale
  if 1 < |deltaX| ∨ 1 < |deltaY| then
    some ({ item with x := d.itemX, y := d.itemY },
          { item with x := (jsRound (d.itemX + deltaX) : ℤ),
                      y := (jsRound (d.itemY + deltaY) : ℤ) })
  else
    none

/-! ## Drawing & Eraser Engine: stroke completion (`DrawingOverlay`) -/

/-- Evaluation of `Math.min` spread over a nonempty list (`Math.min(...xs)`); the caller
guarantees nonemptiness (path length at least 2). -/
def minList : List ℚ → ℚ
  | [] => 0
  | h :: t => t.foldl min h

/-- Evaluation of `Math.max` spread over a nonempty list. -/
def maxList : List ℚ → ℚ
  | [] => 0
  | h :: t => t.foldl max h

/-- Emitted stroke bounds of `DrawingOverlay.handleEnd`. -/
structure Bounds where
  x : ℚ
  y : ℚ
  width : ℚ
  height : ℚ
deriving DecidableEq, Repr

/-- The handler `handleEnd` of `DrawingOverlay`: if at least two points were collected,
transform every point from screen to canvas space (`(p - offset) / scale`),
compute the axis-aligned bounding box with `+10` padding on width and
height, and emit the transformed path together with the bounds; otherwise
emit nothing. -/
def handleEnd (currentPath : List Point) (scale offsetX offsetY : ℚ) :
    Option (List Point × Bounds) :=
  if currentPath.length > 1 then
    let transformed := currentPath.map fun p => Point.mk ((p.x - offsetX) / scale) ((p.y - offsetY) / scale)
    let xs := transformed.map Point.x
    let ys := transformed.map Point.y
    let minX := minList xs
    let minY := minList ys
    let maxX := maxList xs
    let maxY := maxList ys
    some (transformed, ⟨minX, minY, maxX - minX + 10, maxY - minY + 10⟩)
  else
    none

/-! ## `CanvasTable`: row insertion -/

/-- The table fields `addRow` touches. -/
structure TableData where
  rows : Nat
  cols : Nat
  cells : List (List String)
deriving DecidableEq, Repr

/-- The invariant `rows === cells.length` and `cols === cells[i].length` for all `i`. -/
def TableInvariant (t : TableData) : Prop :=
  t.rows = t.cells.length ∧ ∀ row ∈ t.cells, row.length = t.cols

/-- The function `addRow` of `CanvasTable`: insert a blank row of `cols` empty strings at
`index` (default: append at `rows`), producing the new item with
`rows + 1`.  `cells.splice(insertIndex, 0, newRow)` is the
take/insert/drop below (JavaScript `splice` clamps the index to the array
length, as `take`/`drop` do). -/
def addRow (t : TableData) (index : Option Nat) : TableData :=
  let insertIndex := index.getD t.rows
  let newRow := List.replicate t.cols ""
  { rows := t.rows + 1,
    cols := t.cols,
    cells := t.cells.take insertIndex ++ [newRow] ++ t.cells.drop insertIndex }

/-! ## `CanvasTable`: per-cell local undo history -/

/-- One `{html, caret}` snapshot of a cell's local history. -/
structure CellSnapshot where
  html : String
  caret : Nat
deriving DecidableEq, Repr

/-- Outcome of a Ctrl/Cmd+Z (or +Y / +Shift+Z) keystroke inside a table
cell, as `handleKeyDown` of `CanvasTable` decides it:
* `bubbleToGlobal`: `preventDefault()`, blur the cell, and re-dispatch a
  synthetic keyboard event to the document so the Global Action History
  handles the keystroke; the cell content is left untouched;
* `nativeBubble`: return without `preventDefault()`, letting the event
  bubble natively (redo at the end of local history);
* `applyLocal html caret newIndex`: move the local history index to
  `newIndex` and restore `html` and `caret` into the cell (flagged
  undo-originated so no new local entry is pushed);
* `unchanged`: the handler consumed the event but found no snapshot to
  restore (defensive branch, unreachable from a well-formed history). -/
inductive CellKeyResult where
  | bubbleToGlobal
  | nativeBubble
  | applyLocal (html : String) (caret : Nat) (newIndex : Nat)
  | unchanged
deriving DecidableEq, Repr

/-- The Ctrl/Cmd+Z / +Y branch of `handleKeyDown` of `CanvasTable`.
`live` is the cell's current `innerHTML`, `history`/`index` the cell's local
history and index (`cellHistoryRef` / `cellHistoryIndexRef`, missing entries
defaulting to `[]` / `0`), and `isRedo = e.shiftKey || key === 'y'`.
In source order: a mismatch between the live content and the entry at the
current index bubbles to the Global History; undo at index 0 bubbles to the
Global History; redo at the end of history bubbles natively; otherwise the
step is performed locally from the adjacent history entry.  (The
`index >= history.length - 1` comparison uses truncated subtraction exactly
as JavaScript's number arithmetic behaves for `index ≥ 0`.) -/
def handleCellHistoryKey (live : String) (history : List CellSnapshot) (index : Nat)
    (isRedo : Bool) : CellKeyResult :=
  let mismatch : Bool :=
    match history.get? index with
    | some s => s.html ≠ live
    | none => false
  if mismatch then .bubbleToGlobal
  else if !isRedo && index == 0 then .bubbleToGlobal
  else if isRedo && decide (index ≥ history.length - 1) then .nativeBubble
  else if isRedo then
    if index < history.length - 1 then
      match history.get? (index + 1) with
      | some s => .applyLocal s.html s.caret (index + 1)
      | none => .unchanged
    else .unchanged
  else
    if index > 0 then
      match history.get? (index - 1) with
      | some s => .applyLocal s.html s.caret (index - 1)
      | none => .unchanged
    else .unchanged

/-! ## `CanvasTable`: pasting an HTML table fragment -/

/-- Mutable state threaded through `handlePaste`'s table branch: the cells
grid and current column count, plus the per-cell local histories
(`cellHistoryRef` / `cellHistoryIndexRef`), modelled as total maps from
`(row, col)` keys. -/
structure PasteState where
  cells : List (List String)
  maxCol : Nat
  hist : Nat × Nat → List CellSnapshot
  histIdx : Nat × Nat → Nat

/-- Writing one grid cell: `newCells[targetR][targetC] = content`. -/
def writeCell (g : List (List String)) (r c : Nat) (v : String) : List (List String) :=
  g.set r ((g.getD r []).set c v)

/-- The inner `cells.forEach` of `handlePaste`'s table branch: write each
pasted `td`'s content at `(targetR, startCol + cIndex)` and clear that
cell's local history (`cellHistoryRef.current[key] = []`,
`cellHistoryIndexRef.current[key] = 0`) so the next undo bubbles to the
Global History. -/
def pasteCells (targetR : Nat) : Nat → List String → PasteState → PasteState
  | _, [], st => st
  | targetC, content :: rest, st =>
      pasteCells targetR (targetC + 1) rest
        { st with
          cells := writeCell st.cells targetR targetC content,
          hist := Function.update st.hist (targetR, targetC) [],
          histIdx := Function.update st.histIdx (targetR, targetC) 0 }

/-- One iteration of the outer `rows.forEach` of `handlePaste`'s table
branch: expand the column count if this pasted row overflows it (appending
empty strings to every grid row), then write the row's cells. -/
def pasteRow (startCol targetR : Nat) (tds : List String) (st : PasteState) : PasteState :=
  let st1 :=
    if startCol + tds.length > st.maxCol then
      let colsToAdd := startCol + tds.length - st.maxCol
      { st with
        cells := st.cells.map (fun row => row ++ List.replicate colsToAdd ""),
        maxCol := st.maxCol + colsToAdd }
    else st
  pasteCells targetR startCol tds st1

/-- The outer `rows.forEach` of `handlePaste`'s table branch, with the row
index advancing from `targetR`. -/
def pasteRows (startCol : Nat) : Nat → List (List String) → PasteState → PasteState
  | _, [], st => st
  | targetR, tds :: rest, st =>
      pasteRows startCol (targetR + 1) rest (pasteRow startCol targetR tds st)

/-- The table branch of `handlePaste` of `CanvasTable`, reached when the
clipboard HTML contains a `<table>` whose parse yields at least one `<tr>`.
`pasted` is the list of rows of `td`/`th` innerHTML strings; `focused` is
`focusedCell` (`focusedCell?.row || 0` and `focusedCell?.col || 0` both
default to 0).  Rows are expanded up front if the paste overflows the row
count; columns are expanded per pasted row.  Returns `none` when the parse
found no rows (the source then falls through to plain-text insertion). -/
def handlePasteTable (t : TableData) (pasted : List (List String))
    (focused : Option (Nat × Nat))
    (hist : Nat × Nat → List CellSnapshot) (histIdx : Nat × Nat → Nat) :
    Option (TableData × (Nat × Nat → List CellSnapshot) × (Nat × Nat → Nat)) :=
  if pasted.length > 0 then
    let startRow := (focused.map Prod.fst).getD 0
    let startCol := (focused.map Prod.snd).getD 0
    let maxRow :=
      if startRow + pasted.length > t.rows then startRow + pasted.length else t.rows
    let cells1 :=
      if startRow + pasted.length > t.rows then
        t.cells ++ List.replicate (startRow + pasted.length - t.rows) (List.replicate t.cols "")
      else t.cells
    let stF := pasteRows startCol startRow pasted ⟨cells1, t.cols, hist, histIdx⟩
    some (⟨maxRow, stF.maxCol, stF.cells⟩, stF.hist, stF.histIdx)
  else
    none

/-- Which `(row, col)` keys a paste touches: cell `cIndex` of pasted row
`rIndex` lands at `(startRow + rIndex, startCol + cIndex)`. -/
def PasteAffects (startRow startCol : Nat) (pasted : List (List String)) (r c : Nat) : Prop :=
  ∃ ri ci, ri < pasted.length ∧ ci < (pasted.getD ri []).length ∧
    r = startRow + ri ∧ c = startCol + ci

/-! ## Helper lemmas -/

/-- The radicand handed to `Math.sqrt` by `distanceToLineSegment` is a sum
of squares, hence nonnegative — which justifies modelling the comparison
`Math.sqrt(d) <= t` by `0 ≤ t ∧ d ≤ t ^ 2`. -/
theorem distSqToLineSegment_nonneg (px py x1 y1 x2 y2 : ℚ) :
    0 ≤ distSqToLineSegment px py x1 y1 x2 y2 := by
  simp only [distSqToLineSegment]
  split <;> positivity

/-- The new scale produced by the Ctrl+wheel zoom is at least the hard floor
`0.1`, in particular positive. -/
theorem onWheelZoom_scale_lb (v : ViewState) (deltaY rectLeft rectTop clientX clientY : ℚ) :
    1 / 10 ≤ (onWheelZoom v deltaY rectLeft rectTop clientX clientY).scale := by
  unfold onWheelZoom
  exact le_min (le_max_left _ _) (by norm_num)

/-- Evaluation of the store's `getActivePage` on the one-page fixture: the
search loops find the matching notebook/section/page triple. -/
theorem getActivePage_single (nid sid pid : String) (items : List CanvasItem) :
    getActivePage (singleState nid sid pid items) =
      some (singleSelection nid sid pid items) := by
  simp [getActivePage, singleState, singleSelection, findInNotebooks, findInSections,
    List.find?]

/-- Evaluation of the store's `addCanvasItem` on the one-page fixture. -/
theorem addCanvasItem_single (nid sid pid : String) (items : List CanvasItem)
    (item : CanvasItem) :
    addCanvasItem (singleState nid sid pid items) nid sid pid item =
      singleState nid sid pid (items ++ [item]) := by
  simp [addCanvasItem, singleState]

/-- Evaluation of the store's `updateCanvasItem` on the one-page fixture. -/
theorem updateCanvasItem_single (nid sid pid itemId : String) (items : List CanvasItem)
    (u : ItemUpdate) :
    updateCanvasItem (singleState nid sid pid items) nid sid pid itemId u =
      singleState nid sid pid
        (items.map fun i => if i.id = itemId then mergeUpdate i u else i) := by
  simp [updateCanvasItem, singleState]

/-- Evaluation of the store's `deleteCanvasItem` on the one-page fixture. -/
theorem deleteCanvasItem_single (nid sid pid itemId : String) (items : List CanvasItem) :
    deleteCanvasItem (singleState nid sid pid items) nid sid pid itemId =
      singleState nid sid pid (items.filter fun i => decide (i.id ≠ itemId)) := by
  simp [deleteCanvasItem, singleState]

/-- The active item collection of the one-page fixture. -/
theorem activeCanvasItems_single (nid sid pid : String) (items : List CanvasItem) :
    activeCanvasItems (singleState nid sid pid items) = items := by
  simp [activeCanvasItems, getActivePage_single, singleSelection]

/-- Evaluation of `handleUndo` on an undo stack holding exactly one `ADD`:
the delete is keyed by the closure-captured page's ids. -/
theorem handleUndo_single_add (cp : ActiveSelection) (store : NotesState)
    (item : CanvasItem) (redo : List HistoryAction) :
    handleUndo (some cp) store [.ADD item] redo =
      ⟨[.deleteItem ⟨cp.notebook.id, cp.sect.id, cp.page.id⟩ item.id],
        deleteCanvasItem store cp.notebook.id cp.sect.id cp.page.id item.id,
        [], redo ++ [.ADD item]⟩ := rfl

/-! ## C4 — zoom recentring -/

/-- C4: after a Ctrl+wheel zoom step, the new scale is the old scale plus
the wheel delta (`-deltaY * 0.001`) clamped to `[0.1, 5]`, the new offset is
`cursor - (cursor - offset) * (newScale / oldScale)` per axis, and
`screenToCanvas` at the cursor position yields the same canvas point before
and after the zoom. -/
theorem zoom_recentring (v : ViewState) (deltaY rectLeft rectTop clientX clientY : ℚ)
    (hs : 0 < v.scale) :
    (onWheelZoom v deltaY rectLeft rectTop clientX clientY).scale =
      min (max (1 / 10) (v.scale + -deltaY * (1 / 1000))) 5 ∧
    (onWheelZoom v deltaY rectLeft rectTop clientX clientY).offsetX =
      (clientX - rectLeft) - ((clientX - rectLeft) - v.offsetX) *
        ((onWheelZoom v deltaY rectLeft rectTop clientX clientY).scale / v.scale) ∧
    (onWheelZoom v deltaY rectLeft rectTop clientX clientY).offsetY =
      (clientY - rectTop) - ((clientY - rectTop) - v.offsetY) *
        ((onWheelZoom v deltaY rectLeft rectTop clientX clientY).scale / v.scale) ∧
    screenToCanvas (onWheelZoom v deltaY rectLeft rectTop clientX clientY)
        rectLeft rectTop clientX clientY =
      screenToCanvas v rectLeft rectTop clientX clientY := by
  have hs1 : 0 < (onWheelZoom v deltaY rectLeft rectTop clientX clientY).scale :=
    lt_of_lt_of_le (by norm_num) (onWheelZoom_scale_lb v deltaY rectLeft rectTop clientX clientY)
  refine ⟨rfl, rfl, rfl, ?_⟩
  simp only [screenToCanvas, onWheelZoom, Point.mk.injEq]
  constructor <;> · field_simp; ring

/-- Witness for C4 at a concrete state: zooming in by one wheel notch at
cursor `(40, 30)` from scale 1, offset `(0, 0)` leaves the canvas point
under the cursor unchanged. -/
theorem zoom_recentring_witness :
    screenToCanvas (onWheelZoom ⟨1, 0, 0⟩ (-100) 0 0 40 30) 0 0 40 30 =
      screenToCanvas ⟨1, 0, 0⟩ 0 0 40 30 :=
  (zoom_recentring ⟨1, 0, 0⟩ (-100) 0 0 40 30 (by norm_num)).2.2.2

/-! ## C10 — degenerate segments in the point-to-segment distance -/

/-- C10: `distanceToLineSegment` is total; on a zero-length segment (the two
endpoints coincide, so the squared length is zero) the guard returns the
point-to-point Euclidean distance instead of dividing by zero, so the eraser
hit-test is well-defined even for single-point or repeated-point paths. -/
theorem distSq_degenerate_segment (px py x1 y1 : ℚ) :
    distSqToLineSegment px py x1 y1 x1 y1 = (px - x1) ^ 2 + (py - y1) ^ 2 := by
  simp [distSqToLineSegment]

/-! ## C9 — `addRow` scenario and the table invariant -/

/-- C9: `addRow(1)` on the 3×3 scenario table yields 4 rows with a fresh
blank row at index 1 and the old row 1 shifted to index 2; and `addRow`
preserves the invariant `rows = cells.length ∧ ∀ i, cells[i].length = cols`. -/
theorem addRow_scenario :
    addRow ⟨3, 3, [["Column 1", "Column 2", "Column 3"], ["", "", " "], ["", "", ""]]⟩ (some 1) =
      ⟨4, 3, [["Column 1", "Column 2", "Column 3"], ["", "", ""], ["", "", " "], ["", "", ""]]⟩ ∧
    ∀ (t : TableData) (index : Option Nat),
      TableInvariant t → TableInvariant (addRow t index) := by
  constructor
  · rfl
  · rintro t index ⟨hrows, hcols⟩
    constructor
    · simp only [addRow, List.length_append, List.length_take, List.length_drop,
        List.length_singleton, hrows]
      omega
    · intro row hrow
      simp only [addRow, List.mem_append, List.mem_singleton] at hrow ⊢
      rcases hrow with (h | h) | h
      · exact hcols row (List.take_subset _ _ h)
      · simp [h]
      · exact hcols row (List.drop_subset _ _ h)

/-- Witness for C9's invariant clause at a concrete table. -/
theorem addRow_scenario_witness :
    TableInvariant (addRow ⟨1, 1, [["x"]]⟩ none) :=
  addRow_scenario.2 ⟨1, 1, [["x"]]⟩ none ⟨rfl, by simp⟩

/-! ## C8 — stroke completion bounds -/

/-- C8: completing the stroke `[(10,10),(20,10),(20,20)]` at scale 1 and
offset `(0,0)` emits the transformed path with bounds
`{x:10, y:10, width:20, height:20}` (axis-aligned bounding box plus `+10`
padding on width and height); a stroke with fewer than two points emits
nothing. -/
theorem stroke_end_bounds :
    handleEnd [⟨10, 10⟩, ⟨20, 10⟩, ⟨20, 20⟩] 1 0 0 =
      some ([⟨10, 10⟩, ⟨20, 10⟩, ⟨20, 20⟩], ⟨10, 10, 20, 20⟩) ∧
    ∀ (path : List Point) (scale offsetX offsetY : ℚ),
      path.length < 2 → handleEnd path scale offsetX offsetY = none := by
  constructor
  · norm_num [handleEnd, minList, maxList]
  · intro path scale offsetX offsetY h
    simp only [handleEnd, gt_iff_lt]
    rw [if_neg (by omega)]

/-- Witness for C8's short-stroke clause: a single-point stroke emits
nothing. -/
theorem stroke_end_bounds_witness :
    handleEnd [⟨3, 4⟩] 2 1 1 = none :=
  stroke_end_bounds.2 [⟨3, 4⟩] 2 1 1 (by decide)

/-! ## C6 — table drag: scaled delta, rounding, threshold -/

/-- C6: dragging an item at `(100,100)` from screen `(100,100)` to
`(150,130)` at canvas scale 2 stores position `(125,115)`
(`100 + 50/2`, `100 + 30/2`), and the pointer-up handler emits exactly one
`UPDATE` snapshot pair whose previous item has `x = 100` and whose new item
has `x = 125`; a drag whose per-axis canvas-space movement stays within the
1-unit threshold emits nothing. -/
theorem drag_scenario (item : CanvasItem) (hx : item.x = 100) (hy : item.y = 100) :
    dragMovePos (dragStartOf item 100 100) 150 130 2 = (125, 115) ∧
    dragEndHistory (dragStartOf item 100 100) item 150 130 2 =
      some (item, { item with x := 125, y := 115 }) ∧
    ∀ clientX clientY : ℚ,
      |(clientX - 100) / 2| ≤ 1 → |(clientY - 100) / 2| ≤ 1 →
      dragEndHistory (dragStartOf item 100 100) item clientX clientY 2 = none := by
  refine ⟨?_, ?_, ?_⟩
  · simp only [dragMovePos, dragStartOf, hx, hy, jsRound, Prod.mk.injEq]
    norm_num
  · simp only [dragEndHistory, dragStartOf, hx, hy, jsRound]
    rw [if_pos (by norm_num)]
    have hitem : { item with x := (100 : ℚ), y := (100 : ℚ) } = item := by
      cases item
      simp_all
    rw [hitem]
    norm_num
  · intro clientX clientY h1 h2
    simp only [dragEndHistory, dragStartOf, hx, hy]
    rw [if_neg]
    push_neg
    exact ⟨h1, h2⟩

/-- Witness for C6 at a concrete table item: the sub-threshold clause with a
1-pixel-per-axis screen movement (half a canvas unit at scale 2). -/
theorem drag_scenario_witness :
    dragEndHistory (dragStartOf ⟨"t1", 100, 100, 400, 200, .other⟩ 100 100)
        ⟨"t1", 100, 100, 400, 200, .other⟩ 101 101 2 = none :=
  (drag_scenario ⟨"t1", 100, 100, 400, 200, .other⟩ rfl rfl).2.2 101 101
    (by rw [abs_le]; constructor <;> norm_num)
    (by rw [abs_le]; constructor <;> norm_num)

/-! ## C3 — cell-local undo routing -/

/-- C3: with an initialized local history (the current index holds a
snapshot `s`), a plain Ctrl/Cmd+Z in a table cell bubbles to the Global
Action History (suppressed locally with no content change) whenever the
live content differs from `s.html` or the index is 0; otherwise it restores
the previous entry's content and caret and decrements the index. -/
theorem cell_undo_routing (live : String) (history : List CellSnapshot) (index : Nat)
    (s : CellSnapshot) (hs : history[index]? = some s) :
    ((s.html ≠ live ∨ index = 0) →
      handleCellHistoryKey live history index false = .bubbleToGlobal) ∧
    ∀ sp : CellSnapshot, s.html = live → 0 < index → history[index - 1]? = some sp →
      handleCellHistoryKey live history index false = .applyLocal sp.html sp.caret (index - 1) := by
  constructor
  · intro h
    by_cases hm : s.html = live
    · rcases h with h | h
      · exact absurd hm h
      · subst h
        simp [handleCellHistoryKey, List.get?_eq_getElem?, hs, hm]
    · simp [handleCellHistoryKey, List.get?_eq_getElem?, hs, hm]
  · intro sp hm hpos hsp
    simp [handleCellHistoryKey, List.get?_eq_getElem?, hs, hm,
      Nat.pos_iff_ne_zero.mp hpos, hsp, hpos]

/-- Witness for C3: in a cell whose history is `["a" then "ab"]` at index 1
with live content `"ab"`, Ctrl+Z restores `"a"` with its caret at offset 1
and moves the index to 0. -/
theorem cell_undo_routing_witness :
    handleCellHistoryKey "ab" [⟨"a", 1⟩, ⟨"ab", 2⟩] 1 false = .applyLocal "a" 1 0 :=
  (cell_undo_routing "ab" [⟨"a", 1⟩, ⟨"ab", 2⟩] 1 ⟨"ab", 2⟩ rfl).2 ⟨"a", 1⟩ rfl
    (by norm_num) rfl

/-! ## C1 — which page reference undo/redo use -/

/-- Counterexample to C1 as stated: the closure captured a selection for
page `p1`, but the store's active page is now `p2`; undoing an `ADD` keys
its `deleteCanvasItem` call by the CLOSURE-captured ids (`..., "p1"`), not
by what `getState().getActivePage()` returns — so it is not the case that
every undo re-fetches the current page regardless of action type. -/
theorem undo_refetch_counterexample :
    (handleUndo (some (singleSelection "n" "s" "p1" []))
        (singleState "n" "s" "p2" []) [.ADD ⟨"i1", 0, 0, 1, 1, .other⟩] []).calls =
      [.deleteItem ⟨"n", "s", "p1"⟩ "i1"] ∧
    (getActivePage (singleState "n" "s" "p2" [])).map (fun sel => sel.page.id) =
      some "p2" ∧
    ("p1" : String) ≠ "p2" := by
  refine ⟨rfl, ?_, by decide⟩
  rw [getActivePage_single]
  rfl

/-- C1 amended: only the `UPDATE` branches of `handleUndo` and `handleRedo`
re-fetch the current active page from the store before applying; the `ADD`
and `DELETE` branches key their store call by the closure-captured page's
ids. -/
theorem undo_redo_page_refetch (cp fp : ActiveSelection) (store : NotesState)
    (undoStack redoStack : List HistoryAction) (a : HistoryAction)
    (hfresh : getActivePage store = some fp) :
    (handleUndo (some cp) store (undoStack ++ [a]) redoStack).calls =
      (match a with
       | .ADD item => [.deleteItem ⟨cp.notebook.id, cp.sect.id, cp.page.id⟩ item.id]
       | .DELETE item => [.addItem ⟨cp.notebook.id, cp.sect.id, cp.page.id⟩ item]
       | .UPDATE prevItem _ =>
           [.updateItem ⟨fp.notebook.id, fp.sect.id, fp.page.id⟩
             prevItem.id prevItem.asUpdate]) ∧
    (handleRedo (some cp) store undoStack (redoStack ++ [a])).calls =
      (match a with
       | .ADD item => [.addItem ⟨cp.notebook.id, cp.sect.id, cp.page.id⟩ item]
       | .DELETE item => [.deleteItem ⟨cp.notebook.id, cp.sect.id, cp.page.id⟩ item.id]
       | .UPDATE _ newItem =>
           [.updateItem ⟨fp.notebook.id, fp.sect.id, fp.page.id⟩
             newItem.id newItem.asUpdate]) := by
  constructor <;> cases a <;>
    simp [handleUndo, handleRedo, List.getLast?_concat, hfresh]

/-- Witness for C1's amended theorem: a consistent closure/store pair with
a single `ADD` on top of the undo stack. -/
theorem undo_redo_page_refetch_witness :
    (handleUndo (some (singleSelection "n" "s" "p" []))
        (singleState "n" "s" "p" [])
        ([] ++ [.ADD ⟨"i1", 0, 0, 1, 1, .other⟩]) []).calls =
      [.deleteItem ⟨"n", "s", "p"⟩ "i1"] :=
  (undo_redo_page_refetch (singleSelection "n" "s" "p" [])
    (singleSelection "n" "s" "p" []) (singleState "n" "s" "p" []) [] []
    (.ADD ⟨"i1", 0, 0, 1, 1, .other⟩) (getActivePage_single "n" "s" "p" [])).1

/-! ## C2 — ADD+UPDATE coalescing -/

/-- C2: from an empty undo stack and an active page containing no item with
the new item's id, `recordAdd(item)` then `recordUpdate(item, item')`
(where `item' = {...item, ...u}` keeps the id) leave the undo stack at
depth 1 with single entry `ADD item'` and the page containing `item'`; one
subsequent `undo()` removes `item'` from the item set entirely (the page is
back to its prior items — the item is not reverted to its just-created
state). -/
theorem coalescing_add_update (nid sid pid : String) (items0 : List CanvasItem)
    (redo0 : List HistoryAction) (item : CanvasItem) (u : ItemUpdate)
    (hid : (mergeUpdate item u).id = item.id)
    (hfresh : ∀ i ∈ items0, i.id ≠ item.id) :
    (doUpdate (doAdd ⟨singleState nid sid pid items0, [], redo0⟩ item) item u).undoStack =
      [.ADD (mergeUpdate item u)] ∧
    activeCanvasItems
        (doUpdate (doAdd ⟨singleState nid sid pid items0, [], redo0⟩ item) item u).store =
      items0 ++ [mergeUpdate item u] ∧
    activeCanvasItems
        (doUndo (doUpdate (doAdd ⟨singleState nid sid pid items0, [], redo0⟩ item)
          item u)).store = items0 ∧
    ∀ i ∈ items0, i.id ≠ (mergeUpdate item u).id := by
  have h1s : (doAdd ⟨singleState nid sid pid items0, [], redo0⟩ item).store =
      singleState nid sid pid (items0 ++ [item]) := by
    simp [doAdd, getActivePage_single, singleSelection, addCanvasItem_single]
  have h1u : (doAdd ⟨singleState nid sid pid items0, [], redo0⟩ item).undoStack =
      [.ADD item] := by
    simp [doAdd, getActivePage_single, pushToUndoStack]
  have h1g : getActivePage (doAdd ⟨singleState nid sid pid items0, [], redo0⟩ item).store =
      some (singleSelection nid sid pid (items0 ++ [item])) := by
    rw [h1s, getActivePage_single]
  have hmap : (items0 ++ [item]).map
      (fun i => if i.id = item.id then mergeUpdate i u else i) =
      items0 ++ [mergeUpdate item u] := by
    rw [List.map_append]
    congr 1
    · rw [List.map_congr_left, List.map_id]
      intro i hi
      simp [hfresh i hi]
    · simp
  have h2s : (doUpdate (doAdd ⟨singleState nid sid pid items0, [], redo0⟩ item)
      item u).store = singleState nid sid pid (items0 ++ [mergeUpdate item u]) := by
    simp only [doUpdate, h1g, singleSelection]
    rw [h1s, updateCanvasItem_single, hmap]
  have h2u : (doUpdate (doAdd ⟨singleState nid sid pid items0, [], redo0⟩ item)
      item u).undoStack = [.ADD (mergeUpdate item u)] := by
    simp only [doUpdate, h1g]
    rw [h1u]
    simp [pushToUndoStack, hid]
  have h2r : (doUpdate (doAdd ⟨singleState nid sid pid items0, [], redo0⟩ item)
      item u).redoStack = [] := by
    simp only [doUpdate, h1g]
  have hfilter : (items0 ++ [mergeUpdate item u]).filter
      (fun i => decide (i.id ≠ (mergeUpdate item u).id)) = items0 := by
    rw [List.filter_append]
    rw [List.filter_eq_self.mpr]
    · simp
    · intro i hi
      simp [hid, hfresh i hi]
  have h3s : (doUndo (doUpdate (doAdd ⟨singleState nid sid pid items0, [], redo0⟩ item)
      item u)).store = singleState nid sid pid items0 := by
    simp only [doUndo, h2s, h2u, h2r, getActivePage_single]
    rw [handleUndo_single_add]
    simp only [singleSelection]
    rw [deleteCanvasItem_single, hfilter]
  refine ⟨h2u, ?_, ?_, ?_⟩
  · rw [h2s, activeCanvasItems_single]
  · rw [h3s, activeCanvasItems_single]
  · intro i hi
    rw [hid]
    exact hfresh i hi

/-- Witness for C2 at concrete data: a sticky note created empty and
immediately edited coalesces to one stack entry carrying the edited
item. -/
theorem coalescing_add_update_witness :
    (doUpdate (doAdd ⟨singleState "n" "s" "p" [], [], []⟩
        ⟨"a", 0, 0, 200, 200, .sticky ""⟩) ⟨"a", 0, 0, 200, 200, .sticky ""⟩
        ⟨none, none, none, none, none, some (.sticky "hi")⟩).undoStack =
      [.ADD ⟨"a", 0, 0, 200, 200, .sticky "hi"⟩] :=
  (coalescing_add_update "n" "s" "p" [] [] ⟨"a", 0, 0, 200, 200, .sticky ""⟩
    ⟨none, none, none, none, none, some (.sticky "hi")⟩ rfl (by simp)).1

/-! ## C5 — object-erase hit-testing -/

/-- Path hit-testing unrolled: the recursive pairwise walk reports a hit
exactly when some consecutive point pair's segment is hit. -/
theorem isPointNearPath_iff (px py t : ℚ) (pts : List Point) :
    isPointNearPath px py t pts = true ↔
      ∃ k, k + 1 < pts.length ∧
        segmentHit px py t (pts.getD k ⟨0, 0⟩).x (pts.getD k ⟨0, 0⟩).y
          (pts.getD (k + 1) ⟨0, 0⟩).x (pts.getD (k + 1) ⟨0, 0⟩).y = true := by
  induction pts with
  | nil => simp [isPointNearPath]
  | cons p1 rest ih =>
    cases rest with
    | nil =>
      simp only [isPointNearPath, List.length_singleton]
      constructor
      · intro h
        exact absurd h (by simp)
      · rintro ⟨k, hk, -⟩
        omega
    | cons p2 rest2 =>
      rw [isPointNearPath, Bool.or_eq_true]
      constructor
      · rintro (h | h)
        · exact ⟨0, by simp, by simpa using h⟩
        · obtain ⟨k, hk, hseg⟩ := ih.mp h
          exact ⟨k + 1, by simpa using hk, by simpa using hseg⟩
      · rintro ⟨k, hk, hseg⟩
        cases k with
        | zero => exact Or.inl (by simpa using hseg)
        | succ k =>
          exact Or.inr (ih.mpr ⟨k, by simpa using hk, by simpa using hseg⟩)

/-- The actions recorded by the eraser loop are one `DELETE` per
hit-and-unmasked item, in iteration order, independent of the store state. -/
theorem eraserLoop_actions (er px py : ℚ) (ref : PageRef) (l : List CanvasItem)
    (st : NotesState) :
    (eraserLoop er px py ref l st).1 =
      l.filterMap (fun i =>
        if eraserShouldDelete er px py i then some (.DELETE i) else none) := by
  induction l generalizing st with
  | nil => rfl
  | cons i rest ih =>
    rw [eraserLoop]
    by_cases hp : eraserShouldDelete er px py i = true
    · simp [hp, ih]
    · simp [hp, ih]

/-- After the eraser loop on the one-page fixture, the page retains exactly
the items whose id is not among the ids of the hit-and-unmasked items of
the iterated list. -/
theorem eraserLoop_items (er px py : ℚ) (nid sid pid : String) (l : List CanvasItem)
    (items : List CanvasItem) :
    (eraserLoop er px py ⟨nid, sid, pid⟩ l (singleState nid sid pid items)).2 =
      singleState nid sid pid (items.filter (fun j =>
        !((l.filter (eraserShouldDelete er px py)).map CanvasItem.id).contains j.id)) := by
  induction l generalizing items with
  | nil => simp [eraserLoop]
  | cons i rest ih =>
    rw [eraserLoop]
    by_cases hp : eraserShouldDelete er px py i = true
    · rw [if_pos hp]
      dsimp only
      rw [deleteCanvasItem_single, ih, List.filter_filter]
      congr 1
      rw [List.filter_congr]
      intro j hj
      simp only [List.filter_cons, hp, if_pos, List.map_cons, List.contains_cons,
        Bool.not_or, decide_not]
      rw [Bool.and_comm]
      have hbe : (j.id == i.id) = decide (j.id = i.id) := by
        by_cases hb : j.id = i.id <;> simp [hb]
      rw [hbe]
    · rw [if_neg hp, ih]
      congr 1
      rw [List.filter_congr]
      intro j hj
      simp [List.filter_cons, hp]

/-- An item no copy of which occurs in the list contributes no `DELETE` to
the recorded actions. -/
theorem filterMap_delete_count_zero (er px py : ℚ) (l : List CanvasItem)
    (item : CanvasItem) (h : ∀ j ∈ l, j ≠ item) :
    (l.filterMap (fun i =>
        if eraserShouldDelete er px py i then some (.DELETE i) else none)).count
      (HistoryAction.DELETE item) = 0 := by
  induction l with
  | nil => rfl
  | cons i rest ih =>
    have hne : i ≠ item := h i (List.mem_cons_self i rest)
    have ihrest := ih fun j hj => h j (List.mem_cons_of_mem i hj)
    rw [List.filterMap_cons]
    by_cases hp : eraserShouldDelete er px py i = true
    · rw [if_pos hp, List.count_cons, ihrest]
      simp [hne]
    · rw [if_neg hp, ihrest]

/-- With ids unique on the list, the recorded actions contain the `DELETE`
of a member item exactly once if it was hit and unmasked, else not at
all. -/
theorem filterMap_delete_count (er px py : ℚ) (l : List CanvasItem) (item : CanvasItem)
    (hnd : (l.map CanvasItem.id).Nodup) (hmem : item ∈ l) :
    (l.filterMap (fun i =>
        if eraserShouldDelete er px py i then some (.DELETE i) else none)).count
      (HistoryAction.DELETE item) = if eraserShouldDelete er px py item then 1 else 0 := by
  induction l with
  | nil => exact absurd hmem (List.not_mem_nil item)
  | cons i rest ih =>
    rw [List.map_cons, List.nodup_cons] at hnd
    rcases List.mem_cons.mp hmem with heq | hmemr
    · subst heq
      have hzero : (rest.filterMap (fun i =>
          if eraserShouldDelete er px py i then some (.DELETE i) else none)).count
            (HistoryAction.DELETE item) = 0 := by
        refine filterMap_delete_count_zero er px py rest item fun j hj hje => ?_
        exact hnd.1 (hje ▸ List.mem_map_of_mem CanvasItem.id hj)
      rw [List.filterMap_cons]
      by_cases hp : eraserShouldDelete er px py item = true
      · rw [if_pos hp, List.count_cons, hzero, if_pos hp]
        simp
      · rw [if_neg hp, hzero, if_neg hp]
    · have hne : i ≠ item := by
        intro he
        exact hnd.1 (he ▸ List.mem_map_of_mem CanvasItem.id hmemr)
      rw [List.filterMap_cons]
      by_cases hp : eraserShouldDelete er px py i = true
      · rw [if_pos hp, List.count_cons, ih hnd.2 hmemr]
        simp [hne]
      · rw [if_neg hp, ih hnd.2 hmemr]

/-- C5: in object-erase mode over the active page (ids unique on the page),
a drawing item is removed from the page and exactly one `DELETE` action is
recorded for it if and only if some consecutive point pair of its path is
within threshold `eraserRadius + strokeWidth/2` of the canvas-space pointer
(distance `≤` threshold, boundary inclusive, expressed on squared
distances) and the hit point is not within `maskStrokeWidth/2 + 5` of any
segment of any of its existing mask paths. -/
theorem eraser_object_mode (er px py : ℚ) (nid sid pid : String)
    (items : List CanvasItem) (item : CanvasItem)
    (paths : List Point) (sw : ℚ) (masks : List MaskPath)
    (hnd : (items.map CanvasItem.id).Nodup)
    (hmem : item ∈ items)
    (hpayload : item.payload = .drawing paths sw masks) :
    (item ∉ activeCanvasItems
        (handleEraserMove er px py (singleSelection nid sid pid items)
          (singleState nid sid pid items)).2 ∧
      (handleEraserMove er px py (singleSelection nid sid pid items)
          (singleState nid sid pid items)).1.count (HistoryAction.DELETE item) = 1) ↔
    ((∃ k, k + 1 < paths.length ∧
        0 ≤ er + (if sw = 0 then 3 else sw) / 2 ∧
        distSqToLineSegment px py (paths.getD k ⟨0, 0⟩).x (paths.getD k ⟨0, 0⟩).y
            (paths.getD (k + 1) ⟨0, 0⟩).x (paths.getD (k + 1) ⟨0, 0⟩).y ≤
          (er + (if sw = 0 then 3 else sw) / 2) ^ 2) ∧
      isMaskedAt px py masks = false) := by
  have hedel : eraserShouldDelete er px py item = true ↔
      ((∃ k, k + 1 < paths.length ∧
          0 ≤ er + (if sw = 0 then 3 else sw) / 2 ∧
          distSqToLineSegment px py (paths.getD k ⟨0, 0⟩).x (paths.getD k ⟨0, 0⟩).y
              (paths.getD (k + 1) ⟨0, 0⟩).x (paths.getD (k + 1) ⟨0, 0⟩).y ≤
            (er + (if sw = 0 then 3 else sw) / 2) ^ 2) ∧
        isMaskedAt px py masks = false) := by
    simp only [eraserShouldDelete, hpayload, Bool.and_eq_true, Bool.not_eq_true',
      isPointNearPath_iff, segmentHit, decide_eq_true_eq]
  rw [← hedel]
  have hloop : handleEraserMove er px py (singleSelection nid sid pid items)
      (singleState nid sid pid items) =
      eraserLoop er px py ⟨nid, sid, pid⟩ items (singleState nid sid pid items) := rfl
  rw [hloop]
  have hacts := eraserLoop_actions er px py ⟨nid, sid, pid⟩ items
    (singleState nid sid pid items)
  have hitems := eraserLoop_items er px py nid sid pid items items
  constructor
  · rintro ⟨-, hcount⟩
    by_contra hne
    rw [hacts, filterMap_delete_count er px py _ item hnd hmem, if_neg hne] at hcount
    exact absurd hcount one_ne_zero.symm
  · intro hdel
    constructor
    · intro hmem2
      rw [hitems, activeCanvasItems_single, List.mem_filter] at hmem2
      have hin : item.id ∈
          ((items.filter (eraserShouldDelete er px py)).map CanvasItem.id) :=
        List.mem_map_of_mem CanvasItem.id (List.mem_filter.mpr ⟨hmem, hdel⟩)
      have hc := hmem2.2
      rw [Bool.not_eq_true'] at hc
      simp only [List.contains, List.elem_eq_mem, decide_eq_false_iff_not] at hc
      exact hc hin
    · rw [hacts, filterMap_delete_count er px py _ item hnd hmem, if_pos hdel]

/-- Witness for C5: a horizontal two-point stroke through `(0,0)`–`(10,0)`
with stroke width 2 and no masks, hit by the eraser of radius 5 at the
canvas point `(5,1)`, is removed from the page with exactly one recorded
`DELETE`. -/
theorem eraser_object_mode_witness :
    (⟨"d1", 0, 0, 10, 10, .drawing [⟨0, 0⟩, ⟨10, 0⟩] 2 []⟩ : CanvasItem) ∉
        activeCanvasItems
          (handleEraserMove 5 5 1
            (singleSelection "n" "s" "p"
              [⟨"d1", 0, 0, 10, 10, .drawing [⟨0, 0⟩, ⟨10, 0⟩] 2 []⟩])
            (singleState "n" "s" "p"
              [⟨"d1", 0, 0, 10, 10, .drawing [⟨0, 0⟩, ⟨10, 0⟩] 2 []⟩])).2 ∧
      (handleEraserMove 5 5 1
          (singleSelection "n" "s" "p"
            [⟨"d1", 0, 0, 10, 10, .drawing [⟨0, 0⟩, ⟨10, 0⟩] 2 []⟩])
          (singleState "n" "s" "p"
            [⟨"d1", 0, 0, 10, 10, .drawing [⟨0, 0⟩, ⟨10, 0⟩] 2 []⟩])).1.count
        (HistoryAction.DELETE ⟨"d1", 0, 0, 10, 10, .drawing [⟨0, 0⟩, ⟨10, 0⟩] 2 []⟩) = 1 :=
  (eraser_object_mode 5 5 1 "n" "s" "p"
      [⟨"d1", 0, 0, 10, 10, .drawing [⟨0, 0⟩, ⟨10, 0⟩] 2 []⟩]
      ⟨"d1", 0, 0, 10, 10, .drawing [⟨0, 0⟩, ⟨10, 0⟩] 2 []⟩
      [⟨0, 0⟩, ⟨10, 0⟩] 2 [] (by simp) (by simp) rfl).mpr
    ⟨⟨0, by norm_num, by norm_num, by norm_num [distSqToLineSegment]⟩, rfl⟩

/-! ## C7 — paste clears the affected cells' local histories -/

/-- After the inner paste loop, every key's local history is either
untouched or cleared to the empty list with index 0. -/
theorem pasteCells_preserve (r c0 : Nat) (tds : List String) (st : PasteState)
    (k : Nat × Nat) :
    ((pasteCells r c0 tds st).hist k = st.hist k ∨ (pasteCells r c0 tds st).hist k = []) ∧
    ((pasteCells r c0 tds st).histIdx k = st.histIdx k ∨
      (pasteCells r c0 tds st).histIdx k = 0) := by
  induction tds generalizing c0 st with
  | nil => exact ⟨Or.inl rfl, Or.inl rfl⟩
  | cons content rest ih =>
    rw [pasteCells]
    constructor
    · rcases (ih (c0 + 1) _).1 with h | h
      · rw [h]
        by_cases hk : k = (r, c0)
        · subst hk
          exact Or.inr (Function.update_same _ _ _)
        · exact Or.inl (Function.update_noteq hk _ _)
      · exact Or.inr h
    · rcases (ih (c0 + 1) _).2 with h | h
      · rw [h]
        by_cases hk : k = (r, c0)
        · subst hk
          exact Or.inr (Function.update_same _ _ _)
        · exact Or.inl (Function.update_noteq hk _ _)
      · exact Or.inr h

/-- The inner paste loop clears the history of every cell it writes. -/
theorem pasteCells_set (r c0 : Nat) (tds : List String) (st : PasteState)
    (ci : Nat) (hci : ci < tds.length) :
    (pasteCells r c0 tds st).hist (r, c0 + ci) = [] ∧
    (pasteCells r c0 tds st).histIdx (r, c0 + ci) = 0 := by
  induction tds generalizing c0 st ci with
  | nil => exact absurd hci (by simp)
  | cons content rest ih =>
    rw [pasteCells]
    cases ci with
    | zero =>
      constructor
      · rcases (pasteCells_preserve r (c0 + 1) rest _ (r, c0 + 0)).1 with h | h
        · rw [h]
          simp
        · exact h
      · rcases (pasteCells_preserve r (c0 + 1) rest _ (r, c0 + 0)).2 with h | h
        · rw [h]
          simp
        · exact h
    | succ ci =>
      rw [show c0 + (ci + 1) = c0 + 1 + ci from by omega]
      exact ih (c0 + 1) _ ci (by simp only [List.length_cons] at hci; omega)

/-- Column expansion does not touch the local histories, so `pasteRow`
inherits the properties of `pasteCells`. -/
theorem pasteRow_hist (startCol targetR : Nat) (tds : List String) (st : PasteState) :
    ∃ st1 : PasteState, pasteRow startCol targetR tds st = pasteCells targetR startCol tds st1 ∧
      st1.hist = st.hist ∧ st1.histIdx = st.histIdx := by
  by_cases hc : startCol + tds.length > st.maxCol
  · refine ⟨PasteState.mk
      (st.cells.map (fun row => row ++ List.replicate (startCol + tds.length - st.maxCol) ""))
      (st.maxCol + (startCol + tds.length - st.maxCol)) st.hist st.histIdx, ?_, rfl, rfl⟩
    rw [pasteRow, if_pos hc]
  · refine ⟨st, ?_, rfl, rfl⟩
    rw [pasteRow, if_neg hc]

/-- After the outer paste loop, every key's local history is either
untouched or cleared. -/
theorem pasteRows_preserve (startCol r0 : Nat) (l : List (List String)) (st : PasteState)
    (k : Nat × Nat) :
    ((pasteRows startCol r0 l st).hist k = st.hist k ∨ (pasteRows startCol r0 l st).hist k = []) ∧
    ((pasteRows startCol r0 l st).histIdx k = st.histIdx k ∨
      (pasteRows startCol r0 l st).histIdx k = 0) := by
  induction l generalizing r0 st with
  | nil => exact ⟨Or.inl rfl, Or.inl rfl⟩
  | cons tds rest ih =>
    rw [pasteRows]
    obtain ⟨st1, heq, hh, hi⟩ := pasteRow_hist startCol r0 tds st
    rw [heq]
    constructor
    · rcases (ih (r0 + 1) (pasteCells r0 startCol tds st1)).1 with h | h
      · rw [h]
        rcases (pasteCells_preserve r0 startCol tds st1 k).1 with h2 | h2
        · exact Or.inl (h2.trans (congrFun hh k))
        · exact Or.inr h2
      · exact Or.inr h
    · rcases (ih (r0 + 1) (pasteCells r0 startCol tds st1)).2 with h | h
      · rw [h]
        rcases (pasteCells_preserve r0 startCol tds st1 k).2 with h2 | h2
        · exact Or.inl (h2.trans (congrFun hi k))
        · exact Or.inr h2
      · exact Or.inr h

/-- The outer paste loop clears the history of every cell written by some
pasted row. -/
theorem pasteRows_set (startCol r0 : Nat) (l : List (List String)) (st : PasteState)
    (ri ci : Nat) (hri : ri < l.length) (hci : ci < (l.getD ri []).length) :
    (pasteRows startCol r0 l st).hist (r0 + ri, startCol + ci) = [] ∧
    (pasteRows startCol r0 l st).histIdx (r0 + ri, startCol + ci) = 0 := by
  induction l generalizing r0 st ri with
  | nil => exact absurd hri (by simp)
  | cons tds rest ih =>
    rw [pasteRows]
    cases ri with
    | zero =>
      obtain ⟨st1, heq, -, -⟩ := pasteRow_hist startCol r0 tds st
      have hset := pasteCells_set r0 startCol tds st1 ci (by simpa using hci)
      constructor
      · rcases (pasteRows_preserve startCol (r0 + 1) rest (pasteRow startCol r0 tds st)
            (r0 + 0, startCol + ci)).1 with h | h
        · rw [h, heq]
          simpa using hset.1
        · exact h
      · rcases (pasteRows_preserve startCol (r0 + 1) rest (pasteRow startCol r0 tds st)
            (r0 + 0, startCol + ci)).2 with h | h
        · rw [h, heq]
          simpa using hset.2
        · exact h
    | succ ri =>
      rw [show r0 + (ri + 1) = r0 + 1 + ri from by omega]
      exact ih (r0 + 1) _ ri (by simp only [List.length_cons] at hri; omega)
        (by simpa using hci)

/-- Counterexample to C7 as stated: pasting the one-cell HTML table
`[["X"]]` into a 1×1 table whose cell history held one snapshot leaves the
affected cell's local history EMPTY (`[]`, zero entries), not "a single
empty entry" (which would be a one-element list). -/
theorem paste_history_counterexample :
    (handlePasteTable ⟨1, 1, [[""]]⟩ [["X"]] none (fun _ => [⟨"", 0⟩]) (fun _ => 0)).map
        (fun res => res.2.1 (0, 0)) = some ([] : List CellSnapshot) := rfl

/-- C7 amended: pasting an HTML table fragment resets the local undo
history of every affected cell to the EMPTY history list (zero entries)
with history index 0; consequently the next Ctrl/Cmd+Z in such a cell
bubbles to the Global Action History (via the index-0 branch of the
keystroke router) instead of performing a partial local undo. -/
theorem paste_resets_cell_history (t : TableData) (pasted : List (List String))
    (focused : Option (Nat × Nat)) (hist : Nat × Nat → List CellSnapshot)
    (histIdx : Nat × Nat → Nat) (t1 : TableData)
    (hist1 : Nat × Nat → List CellSnapshot) (histIdx1 : Nat × Nat → Nat)
    (hres : handlePasteTable t pasted focused hist histIdx = some (t1, hist1, histIdx1))
    (r c : Nat)
    (haff : PasteAffects ((focused.map Prod.fst).getD 0) ((focused.map Prod.snd).getD 0)
      pasted r c) :
    hist1 (r, c) = [] ∧ histIdx1 (r, c) = 0 ∧
      ∀ live : String,
        handleCellHistoryKey live (hist1 (r, c)) (histIdx1 (r, c)) false = .bubbleToGlobal := by
  obtain ⟨ri, ci, hri, hci, hr, hc⟩ := haff
  have hlen : pasted.length > 0 := by omega
  rw [handlePasteTable, if_pos hlen] at hres
  simp only [Option.some.injEq, Prod.mk.injEq] at hres
  obtain ⟨-, hh1, hi1⟩ := hres
  subst hh1
  subst hi1
  subst hr
  subst hc
  refine ⟨(pasteRows_set _ _ pasted _ ri ci hri hci).1,
    (pasteRows_set _ _ pasted _ ri ci hri hci).2, fun live => ?_⟩
  rw [(pasteRows_set _ _ pasted _ ri ci hri hci).1,
    (pasteRows_set _ _ pasted _ ri ci hri hci).2]
  rfl

/-- Witness for C7 (amended): after pasting `[["X"]]` into the 1×1 table, a
Ctrl+Z in the affected cell bubbles to the Global Action History. -/
theorem paste_resets_cell_history_witness :
    handleCellHistoryKey "X"
        (Function.update (fun _ => [(⟨"", 0⟩ : CellSnapshot)]) ((0 : Nat), (0 : Nat)) [] (0, 0))
        (Function.update (fun _ => (0 : Nat)) ((0 : Nat), (0 : Nat)) 0 (0, 0)) false =
      .bubbleToGlobal :=
  (paste_resets_cell_history ⟨1, 1, [[""]]⟩ [["X"]] none (fun _ => [⟨"", 0⟩]) (fun _ => 0)
      ⟨1, 1, [["X"]]⟩
      (Function.update (fun _ => [(⟨"", 0⟩ : CellSnapshot)]) (0, 0) [])
      (Function.update (fun _ => (0 : Nat)) (0, 0) 0)
      rfl 0 0 ⟨0, 0, by norm_num, by norm_num, rfl, rfl⟩).2.2 "X"

end NoteDown
